import Mathlib

/-!
Shallow embedding of the CBZXL conversion pipeline (`cbzxl.py`).

The program bulk-converts CBZ archives: per archive it extracts members into a
temporary working tree, classifies member files by extension, re-encodes
JPEG/PNG members to JPEG XL through the external `cjxl` tool, optionally
flattens nested directory structure, repacks the archive, and records the
outcome in two SQLite stores (`converted_archives.db` for successes,
`failed_archives.db` for failures).

Modelling conventions:
- External subprocess results (MIME sniffing through `file`, `cjxl`
  invocations, zip extraction, archive deletion, repacked archive size) are
  oracle inputs carried in the structures below; the control flow acting on
  those results is translated from the source.
- Filesystem mutation performed by a function is exposed as explicit result
  data (`ConvEffects`, `FsOutcome`, the `WTree` transformer of the flattener).
- The SQLite stores are association lists keyed by path; `INSERT OR REPLACE`
  becomes `upsertSuccess` / `upsertFail`.  The `percent_saved` REAL column and
  the `converted_at` wall-clock timestamp are not modelled (floating point /
  real time); no claim refers to them.
- Logging (console and log file) is not modelled.
- Python `str.lower` / `str.upper` are modelled ASCII-wise via `Char.toLower`
  and `Char.toUpper`, which agrees with Python on all strings appearing in the
  program's extension and MIME handling.
-/

/-- ASCII lowercase of a string (models Python `str.lower()` on the
extension/MIME strings used by the program). -/
def lowerStr (s : String) : String := ⟨s.data.map Char.toLower⟩

/-- ASCII uppercase of a string (models Python `str.upper()`). -/
def upperStr (s : String) : String := ⟨s.data.map Char.toUpper⟩

/-- Helper for substring search on character lists. -/
def containsAux (needle : List Char) : List Char → Bool
  | [] => decide (needle = [])
  | c :: rest => needle.isPrefixOf (c :: rest) || containsAux needle rest

/-- Models the Python expression `needle in hay` on strings (substring test),
used for the cjxl stderr check. -/
def strContains (hay needle : String) : Bool := containsAux needle.data hay.data

/-- Outcome of the `file --mime-type` subprocess run in `get_mime_type`:
either it produced a MIME string, or it timed out, or it failed
(`CalledProcessError` on nonzero exit, or `FileNotFoundError` when the
sniffing binary is missing). -/
inductive Sniff where
  | ok (mime : String)
  | timedOut
  | procErr
deriving DecidableEq

/-- Fallback MIME string returned by `get_mime_type` on any sniffing error. -/
def octetStream : String := "application/octet-stream"

/-- Translation of `get_mime_type` (cbzxl.py lines 162-172): returns the
sniffed string on success and `"application/octet-stream"` on timeout,
nonzero exit, or missing binary; it never raises. -/
def get_mime_type : Sniff → String
  | .ok m => m
  | .timedOut => octetStream
  | .procErr => octetStream

/-- Translation of the `ext_map` dictionary in `correct_extension`
(cbzxl.py lines 176-181). -/
def extMap (mime : String) : Option String :=
  if mime = "image/jpeg" then some ".jpg"
  else if mime = "image/png" then some ".png"
  else if mime = "image/webp" then some ".webp"
  else if mime = "image/avif" then some ".avif"
  else none

/-- Translation of `correct_extension` (cbzxl.py lines 175-194).
Result: first component is the extension of the path the caller continues
with (under dry-run the new path is returned even though no rename happens);
second component is `some newExt` exactly when an on-disk rename was
performed.  The `OSError` branch (rename failure) is not modelled. -/
def correct_extension (dryRun : Bool) (ext mime : String) : String × Option String :=
  match extMap mime with
  | some ce =>
      if lowerStr ext ≠ ce then (ce, if dryRun then none else some ce)
      else (ext, none)
  | none => (ext, none)

/-- Outcome of one `cjxl` subprocess invocation: either the call timed out
(`subprocess.TimeoutExpired`), or it completed with a return code and stderr
text, leaving the target `.jxl` path existing or not with the given size. -/
structure EncAttempt where
  timedOut : Bool
  returncode : Int
  stderr : String
  jxlExists : Bool
  jxlSize : Nat
deriving DecidableEq

/-- Filesystem/process effects of one `convert_single_image` call, as
observable data: the returned savings, whether the source member was renamed
(and to which extension), how many cjxl invocations ran, whether the
documented retry (with `--allow_jpeg_reconstruction 0`) ran, whether a
partial `.jxl` was deleted before the retry, whether the source member was
deleted, and whether a `.jxl` file remains afterwards. -/
structure ConvEffects where
  saved : Int
  renamedTo : Option String
  attempts : Nat
  retried : Bool
  removedBeforeRetry : Bool
  srcDeleted : Bool
  jxlKept : Bool
deriving DecidableEq

/-- Effects of a member that was returned early from the worker: zero
savings, no rename, no encode, no deletion. -/
def noConvEffects : ConvEffects :=
  { saved := 0, renamedTo := none, attempts := 0, retried := false
    removedBeforeRetry := false, srcDeleted := false, jxlKept := false }

/-- The specific cjxl stderr text that triggers the single retry
(cbzxl.py line 236). -/
def reconNeedle : String := "JPEG bitstream reconstruction data could not be created"

/-- One image member of a working tree, bundling its path extension, its
sniffing-subprocess outcome, its size before encoding, and the oracle
outcomes of the (up to two) cjxl invocations on it. -/
structure Member where
  ext : String
  sniff : Sniff
  origSize : Nat
  att1 : EncAttempt
  att2 : EncAttempt
deriving DecidableEq

/-- Translation of the post-encode check in `convert_single_image`
(cbzxl.py lines 251-263): on returncode 0 with an existing nonzero-size
output, savings = original size minus jxl size and the source is removed;
otherwise zero savings, and an existing zero-size output artifact is
removed (a nonzero-size output of a failed run is left in place). -/
def finalizeConv (ren : Option String) (att : Nat) (retr removedPartial : Bool)
    (orig : Nat) (r : EncAttempt) : ConvEffects :=
  if r.returncode = 0 ∧ r.jxlExists = true ∧ 0 < r.jxlSize then
    { saved := (orig : Int) - (r.jxlSize : Int), renamedTo := ren, attempts := att,
      retried := retr, removedBeforeRetry := removedPartial,
      srcDeleted := true, jxlKept := true }
  else
    { saved := 0, renamedTo := ren, attempts := att, retried := retr,
      removedBeforeRetry := removedPartial, srcDeleted := false,
      jxlKept := r.jxlExists && decide (r.jxlSize ≠ 0) }

/-- Translation of `convert_single_image` (cbzxl.py lines 197-269).
The grayscale-ICC / CMYK colorspace normalisation calls are best-effort
in-place pixel operations with no bearing on any claim and are not modelled
as effects.  The retry command passes `--allow_jpeg_reconstruction 0`;
`retried = true` records that this second invocation ran. -/
def convert_single_image (dryRun : Bool) (m : Member) : ConvEffects :=
  let mime := get_mime_type m.sniff
  if ¬(mime = "image/jpeg" ∨ mime = "image/png") then noConvEffects
  else
    let ren := (correct_extension dryRun m.ext mime).2
    if dryRun then { noConvEffects with renamedTo := ren }
    else if m.att1.timedOut then
      { saved := 0, renamedTo := ren, attempts := 1, retried := false,
        removedBeforeRetry := false, srcDeleted := false, jxlKept := false }
    else if m.att1.returncode ≠ 0 ∧ strContains m.att1.stderr reconNeedle = true then
      if m.att2.timedOut then
        { saved := 0, renamedTo := ren, attempts := 2, retried := true,
          removedBeforeRetry := m.att1.jxlExists, srcDeleted := false, jxlKept := false }
      else finalizeConv ren 2 true m.att1.jxlExists m.origSize m.att2
    else finalizeConv ren 1 false false m.origSize m.att1

/-- Buckets a working-tree file is sorted into by `convert_images`. -/
inductive FileClass where
  | convertibleJpg
  | convertiblePng
  | alreadyJxl
  | otherImage
  | unrecognized
deriving DecidableEq

/-- Translation of the extension bucketing loop of `convert_images`
(cbzxl.py lines 286-304): the bucket is chosen from the lowercased filename
extension alone. -/
def classifyExt (ext : String) : FileClass :=
  let e := lowerStr ext
  if e = ".jpg" ∨ e = ".jpeg" then .convertibleJpg
  else if e = ".png" then .convertiblePng
  else if e = ".jxl" then .alreadyJxl
  else if e = ".webp" ∨ e = ".avif" ∨ e = ".gif" ∨ e = ".tiff" ∨ e = ".bmp" then .otherImage
  else .unrecognized

/-- Modelled from the spec: the ContentClassifier as section 4.2 describes
it, determining the bucket from the sniffed content type rather than the
filename extension ("determine true content type via a content-sniffing
capability (not filename extension)").  Used only to compare the spec's
classification with the source's extension-driven one. -/
def specClassifyMime (mime : String) : FileClass :=
  if mime = "image/jpeg" then .convertibleJpg
  else if mime = "image/png" then .convertiblePng
  else if mime = "image/jxl" then .alreadyJxl
  else if mime = "image/webp" ∨ mime = "image/avif" ∨ mime = "image/gif" ∨
      mime = "image/tiff" ∨ mime = "image/bmp" then .otherImage
  else .unrecognized

/-- Per-member treatment inside `convert_images`: only members bucketed as
convertible by extension are submitted to the worker pool
(cbzxl.py lines 334-342); every other member is left untouched. -/
def memberEffect (dryRun : Bool) (m : Member) : ConvEffects :=
  match classifyExt m.ext with
  | .convertibleJpg => convert_single_image dryRun m
  | .convertiblePng => convert_single_image dryRun m
  | _ => noConvEffects

/-- Translation of the dominant-type decision (cbzxl.py lines 306-311). -/
def dominantType (jpg png : Nat) : String :=
  if jpg > png then "JPG"
  else if png > jpg then "PNG"
  else if jpg > 0 then "Mixed"
  else "N/A"

/-- Archive-level conversion outcomes (the `ConversionStatus` enum,
cbzxl.py lines 39-45). -/
inductive ConversionStatus where
  | processedSavedSpace
  | processedNoSpaceSaved
  | alreadyJxlNoConvertibles
  | noJpgPngFound
  | noImagesRecognized
  | containOtherFormats
deriving DecidableEq

/-- Insertion-ordered tally update, modelling
`ext_counts[ext] = ext_counts.get(ext, 0) + 1` over a Python dict. -/
def bumpCount (l : List (String × Nat)) (e : String) : List (String × Nat) :=
  if l.any (fun p => p.1 = e) then
    l.map (fun p => if p.1 = e then (p.1, p.2 + 1) else p)
  else l ++ [(e, 1)]

/-- Tally of a list of extensions in first-occurrence order. -/
def tallyExts (es : List String) : List (String × Nat) := es.foldl bumpCount []

/-- Models Python `max(ext_counts, key=ext_counts.get)`: the first key of
maximal count in insertion order. -/
def maxByCountFirst (l : List (String × Nat)) : Option String :=
  match l with
  | [] => none
  | p :: rest => some ((rest.foldl (fun b q => if q.2 > b.2 then q else b) p).1)

/-- Result of `convert_images`: the status/total/most-frequent-other-format/
dominant-type quadruple the source returns, plus the per-member effects list
(aligned with the member list) making the worker dispatch observable. -/
structure ConvImagesRes where
  status : ConversionStatus
  totalSaved : Int
  otherFormat : String
  dominant : String
  effects : List ConvEffects
deriving DecidableEq

/-- Translation of `convert_images` (cbzxl.py lines 272-347).  The total is
the sum of the worker results over the extension-convertible members (the
thread pool's `as_completed` accumulation is a plain commutative sum). -/
def convert_images (dryRun : Bool) (members : List Member) : ConvImagesRes :=
  let jpgCount := members.countP (fun m => classifyExt m.ext = .convertibleJpg)
  let pngCount := members.countP (fun m => classifyExt m.ext = .convertiblePng)
  let convertible := members.filter (fun m =>
    classifyExt m.ext = .convertibleJpg ∨ classifyExt m.ext = .convertiblePng)
  let jxls := members.filter (fun m => classifyExt m.ext = .alreadyJxl)
  let others := members.filter (fun m => classifyExt m.ext = .otherImage)
  let dom := dominantType jpgCount pngCount
  let effs := members.map (memberEffect dryRun)
  if convertible.isEmpty then
    if ¬jxls.isEmpty then
      ⟨.alreadyJxlNoConvertibles, 0, "", dom, effs⟩
    else if ¬others.isEmpty then
      match maxByCountFirst (tallyExts (others.map (fun m => lowerStr m.ext))) with
      | some e => ⟨.containOtherFormats, 0, upperStr (e.drop 1), dom, effs⟩
      | none => ⟨.noJpgPngFound, 0, "", dom, effs⟩
    else
      ⟨.noImagesRecognized, 0, "", dom, effs⟩
  else
    let total := (convertible.map (fun m => (convert_single_image dryRun m).saved)).sum
    if total > 0 then ⟨.processedSavedSpace, total, "", dom, effs⟩
    else ⟨.processedNoSpaceSaved, total, "", dom, effs⟩

/-- Row of the success store `converted_archives.db` as written by
`mark_processed` (cbzxl.py lines 88-107); the `percent_saved` and
`converted_at` columns are omitted (see the header comment). -/
structure SuccessRec where
  path : String
  original_size : Nat
  final_size : Int
  bytes_saved : Int
  status : String
  dominant_type : String
deriving DecidableEq

/-- Row of the failure store `failed_archives.db` as written by
`mark_failed` (cbzxl.py lines 109-121): only the path and the literal
status `'failed'` (plus an unmodelled timestamp) are stored. -/
structure FailRec where
  path : String
  status : String
deriving DecidableEq

/-- SQLite `INSERT OR REPLACE` on the success store: the row with the same
primary-key path is replaced, otherwise the row is appended. -/
def upsertSuccess (store : List SuccessRec) (r : SuccessRec) : List SuccessRec :=
  if store.any (fun x => x.path = r.path) then
    store.map (fun x => if x.path = r.path then r else x)
  else store ++ [r]

/-- SQLite `INSERT OR REPLACE` on the failure store. -/
def upsertFail (store : List FailRec) (r : FailRec) : List FailRec :=
  if store.any (fun x => x.path = r.path) then
    store.map (fun x => if x.path = r.path then r else x)
  else store ++ [r]

/-- Translation of `mark_processed` (cbzxl.py lines 88-107): a no-op under
dry-run (the source also logs), otherwise an upsert with status literally
`'processed'`. -/
def mark_processed (dryRun : Bool) (store : List SuccessRec) (path : String)
    (orig : Nat) (finalSz saved : Int) (dom : String) : List SuccessRec :=
  if dryRun then store
  else upsertSuccess store ⟨path, orig, finalSz, saved, "processed", dom⟩

/-- Translation of `mark_failed` (cbzxl.py lines 109-121): a no-op under
dry-run, otherwise an upsert of the path with status `'failed'`.  No
diagnostic text is part of the row the source inserts. -/
def mark_failed (dryRun : Bool) (store : List FailRec) (path : String) : List FailRec :=
  if dryRun then store else upsertFail store ⟨path, "failed"⟩

/-- The two persisted stores. -/
structure World where
  success : List SuccessRec
  failed : List FailRec
deriving DecidableEq

/-- Filesystem effects of one `process_cbz` call on the archive file:
whether a `.bak` copy was created, whether the archive was deleted from
disk, and the size it was repacked to (`none` when the archive bytes were
left untouched). -/
structure FsOutcome where
  backupCreated : Bool
  archiveDeleted : Bool
  repackedTo : Option Nat
deriving DecidableEq

/-- FsOutcome of a run that left the archive file untouched. -/
def noFsOutcome : FsOutcome := ⟨false, false, none⟩

/-- Run-wide mode flags set from the CLI in `main`. -/
structure Flags where
  dryRun : Bool
  backup : Bool
  deleteEmpty : Bool
  noConvert : Bool
  noFlatten : Bool
deriving DecidableEq

/-- Everything `process_cbz` learns about one archive from the filesystem
and its subprocesses: relative path, size on disk, whether the backup copy
and the zip extraction succeed, the diagnostic text of whatever exception is
raised on their failure (used by the source only in log messages), whether
an unhandled exception interrupts the processing, the extracted members,
whether the extraction produced subdirectories, whether `flatten_cbz_archive`
reports that it moved files, the size the repacked archive comes out at, and
whether deleting the archive file succeeds. -/
structure ArchiveJob where
  relPath : String
  origSize : Nat
  backupOk : Bool
  extractOk : Bool
  diag : String
  unexpectedErr : Bool
  members : List Member
  hasDirs : Bool
  flattenMoved : Bool
  repackedSize : Nat
  deleteOk : Bool
deriving DecidableEq

/-- Result of `process_cbz`: the updated stores, the archive-file effects,
and the `(saved_bytes, was_flattened, was_deleted)` triple the source
returns. -/
structure PRes where
  world : World
  fs : FsOutcome
  savedBytes : Int
  wasFlattened : Bool
  wasDeleted : Bool
deriving DecidableEq

/-- Translation of `process_cbz` (cbzxl.py lines 416-563).
Under dry-run the extraction is skipped (line 440), so the working tree the
conversion and flattening steps see is empty.  `job.diag` is never consulted:
the source interpolates exception text into log lines only.  The top-level
`except` (lines 546-552) is modelled by the `unexpectedErr` sentinel. -/
def process_cbz (fl : Flags) (w : World) (job : ArchiveJob) : PRes :=
  if fl.backup ∧ ¬fl.dryRun ∧ ¬job.backupOk then
    ⟨⟨w.success, mark_failed fl.dryRun w.failed job.relPath⟩, noFsOutcome, 0, false, false⟩
  else
    let fsB : FsOutcome := { noFsOutcome with backupCreated := fl.backup ∧ ¬fl.dryRun }
    if job.unexpectedErr then
      ⟨⟨w.success, mark_failed fl.dryRun w.failed job.relPath⟩, fsB, 0, false, false⟩
    else if ¬fl.dryRun ∧ ¬job.extractOk then
      ⟨⟨w.success, mark_failed fl.dryRun w.failed job.relPath⟩, fsB, 0, false, false⟩
    else
      let tree := if fl.dryRun then [] else job.members
      let conv : Option ConvImagesRes :=
        if fl.noConvert then none else some (convert_images fl.dryRun tree)
      let status := match conv with
        | some c => c.status
        | none => ConversionStatus.noImagesRecognized
      let convSaved : Int := match conv with
        | some c => c.totalSaved
        | none => 0
      let dom := match conv with
        | some c => c.dominant
        | none => "N/A"
      let imagesConverted :=
        status = ConversionStatus.processedSavedSpace ∨
          status = ConversionStatus.processedNoSpaceSaved
      if fl.deleteEmpty ∧ status = ConversionStatus.noImagesRecognized then
        if ¬fl.dryRun then
          if job.deleteOk then
            ⟨⟨mark_processed fl.dryRun w.success job.relPath job.origSize 0 0
                "DELETED_NO_IMAGES", w.failed⟩,
              { fsB with archiveDeleted := true }, 0, false, true⟩
          else
            ⟨⟨w.success, mark_failed fl.dryRun w.failed job.relPath⟩, fsB, 0, false, false⟩
        else
          ⟨⟨mark_processed fl.dryRun w.success job.relPath job.origSize 0 0
              "WOULD_DELETE_NO_IMAGES", w.failed⟩, fsB, 0, false, true⟩
      else
        let flattened := ¬fl.noFlatten ∧ (¬fl.dryRun ∧ job.hasDirs) ∧ job.flattenMoved
        let actionTaken := imagesConverted ∨ flattened
        if actionTaken then
          if ¬fl.dryRun then
            let finalSize := job.repackedSize
            let actual : Int := (job.origSize : Int) - (finalSize : Int)
            ⟨⟨mark_processed fl.dryRun w.success job.relPath job.origSize finalSize actual dom,
                w.failed⟩,
              { fsB with repackedTo := some finalSize },
              actual, decide flattened, false⟩
          else
            ⟨⟨mark_processed fl.dryRun w.success job.relPath job.origSize
                ((job.origSize : Int) - convSaved) convSaved dom, w.failed⟩,
              fsB, convSaved, decide flattened, false⟩
        else
          ⟨⟨mark_processed fl.dryRun w.success job.relPath job.origSize job.origSize 0 dom,
              w.failed⟩, fsB, 0, decide flattened, false⟩

/-- Translation of the pre-load of already-processed paths in `main`
(cbzxl.py lines 732-741): only rows with status `'processed'` are loaded,
and nothing is loaded when recheck-all is set. -/
def loadProcessedPaths (recheckAll : Bool) (success : List SuccessRec) : List String :=
  if recheckAll then []
  else (success.filter (fun r => r.status = "processed")).map (fun r => r.path)

/-- Aggregate state of the per-archive loop of `main`
(cbzxl.py lines 759-788); `fsEffects` collects, per archive actually handed
to `process_cbz`, the archive-file effects. -/
structure RunStats where
  world : World
  processedCount : Nat
  skippedCount : Nat
  deletedCount : Nat
  flattenedCount : Nat
  totalSaved : Int
  fsEffects : List (String × FsOutcome)
deriving DecidableEq

/-- One iteration of the loop over discovered archives
(cbzxl.py lines 768-788). -/
def runStep (fl : Flags) (recheckAll : Bool) (skipSet : List String)
    (st : RunStats) (job : ArchiveJob) : RunStats :=
  if job.relPath ∈ skipSet ∧ ¬recheckAll then
    { st with skippedCount := st.skippedCount + 1 }
  else
    let r := process_cbz fl st.world job
    if r.wasDeleted then
      { st with
        world := r.world
        deletedCount := st.deletedCount + 1
        fsEffects := st.fsEffects ++ [(job.relPath, r.fs)] }
    else
      { st with
        world := r.world
        processedCount := st.processedCount + 1
        totalSaved := st.totalSaved + r.savedBytes
        flattenedCount := st.flattenedCount + (if r.wasFlattened then 1 else 0)
        fsEffects := st.fsEffects ++ [(job.relPath, r.fs)] }

/-- Translation of the main processing loop of `main` (cbzxl.py lines
729-788): the skip set is pre-loaded from the success store once, then every
discovered archive is either skipped or handed to `process_cbz`. -/
def mainLoop (fl : Flags) (recheckAll : Bool) (w : World) (jobs : List ArchiveJob) : RunStats :=
  let skipSet := loadProcessedPaths recheckAll w.success
  jobs.foldl (runStep fl recheckAll skipSet) ⟨w, 0, 0, 0, 0, 0, []⟩

/-- File name inside the working tree, split as Python `Path.stem` /
`Path.suffix` split it (the collision loop recomputes the split from the
current candidate). -/
structure FName where
  stem : String
  ext : String
deriving DecidableEq

/-- Rendered file name, what `Path.name` returns. -/
def renderName (n : FName) : String := n.stem ++ n.ext

/-- One file of the working tree: the directory path (list of components
relative to the tree root, `[]` meaning the root itself) and the name. -/
structure TFile where
  dir : List String
  name : FName
deriving DecidableEq

/-- The working tree: its files and its directories (each directory a
component path relative to the root). -/
structure WTree where
  files : List TFile
  dirs : List (List String)
deriving DecidableEq

/-- Models `dest_path.exists()` for a candidate destination `root/name`
during flattening: a root-level file of that name, or a top-level directory
rendering to that name, occupies the path. -/
def collides (t : WTree) (n : FName) : Bool :=
  t.files.any (fun f => decide (f.dir = [] ∧ f.name = n)) ||
    t.dirs.any (fun d => decide (d = [renderName n]))

/-- One step of the collision loop (cbzxl.py line 376):
`dest_path = temp_dir_path / f"{dest_path.stem}_{counter}{dest_path.suffix}"`. -/
def suffixed (n : FName) (c : Nat) : FName := ⟨n.stem ++ "_" ++ toString c, n.ext⟩

/-- Upper bound on the stem length of any name the tree can collide with;
used to bound the collision loop, which lengthens the candidate stem on
every iteration. -/
def stemBound (t : WTree) : Nat :=
  max (t.files.foldr (fun f m => max f.name.stem.length m) 0)
    (t.dirs.foldr (fun d m => max (d.foldr (fun s m2 => max s.length m2) 0) m) 0)

/-- Fuel-indexed unfolding of the collision `while` loop
(cbzxl.py lines 364-379).  `resolveGo` supplies fuel that provably never
runs out (`resolveFuel_free` below): each iteration lengthens the stem, and
a stem longer than every name in the tree cannot collide. -/
def resolveFuel : Nat → WTree → FName → Nat → FName
  | 0, _, n, _ => n
  | fuel + 1, t, n, c => if collides t n then resolveFuel fuel t (suffixed n c) (c + 1) else n

/-- Destination-name resolution for one moved file: the collision loop
starting at the file's own name with counter 1. -/
def resolveGo (t : WTree) (n : FName) (c : Nat) : FName :=
  resolveFuel (stemBound t + 1) t n c

/-- One file move of the flatten loop (cbzxl.py lines 364-392): the
destination name is resolved against the current tree, the source path
disappears, the destination appears at the root.  (`samefile` is always
false here: the source is nested and the destination is at the root.) -/
def moveOne (t : WTree) (src : TFile) : WTree :=
  let dest := resolveGo t src.name 1
  ⟨(t.files.erase src) ++ [⟨[], dest⟩], t.dirs⟩

/-- Names of the files currently at the tree root. -/
def rootNames (t : WTree) : List FName :=
  (t.files.filter (fun f => decide (f.dir = []))).map (fun f => f.name)

/-- Models the emptiness check of the directory-removal pass
(cbzxl.py lines 398-402): a top-level directory `x` is "effectively empty"
iff every file and every directory nested anywhere beneath it has the name
`.DS_Store` (for a file the full rendered name; for a directory the last
path component). -/
def effEmpty (t : WTree) (x : String) : Bool :=
  t.files.all (fun f => decide (f.dir.head? ≠ some x) ||
      decide (renderName f.name = ".DS_Store")) &&
    t.dirs.all (fun d => decide (d.head? ≠ some x) || decide (d = [x]) ||
      decide (d.getLast? = some ".DS_Store"))

/-- Models `shutil.rmtree` on top-level directory `x`: every file and
directory whose path starts with `x` disappears. -/
def rmtree (t : WTree) (x : String) : WTree :=
  ⟨t.files.filter (fun f => decide (f.dir.head? ≠ some x)),
    t.dirs.filter (fun d => decide (d.head? ≠ some x))⟩

/-- The directory-removal pass (cbzxl.py lines 394-407): iterate over the
snapshot of top-level directories, removing each one that is effectively
empty at that moment. -/
def sweepFold (t : WTree) (tops : List String) : WTree :=
  tops.foldl (fun acc x => if effEmpty acc x then rmtree acc x else acc) t

/-- Top-level directory names of the tree (what
`[item for item in temp_dir_path.iterdir() if item.is_dir()]` yields). -/
def topDirs (t : WTree) : List String :=
  t.dirs.filterMap (fun d => match d with | [x] => some x | _ => none)

/-- Translation of `flatten_cbz_archive` (cbzxl.py lines 350-413), with
moves assumed to succeed (the per-file `except` path is not modelled).
Returns the final tree and the `action_taken` flag.  Under dry-run nothing
moves but the flag is still set when nested files exist; the directory pass
runs only on a real run that moved something. -/
def flatten_cbz_archive (dryRun : Bool) (t : WTree) : WTree × Bool :=
  let toMove := t.files.filter (fun f => decide (f.dir ≠ []))
  if toMove.isEmpty then (t, false)
  else if dryRun then (t, true)
  else
    let moved := toMove.foldl moveOne t
    (sweepFold moved (topDirs moved), true)

theorem correct_extension_dry (ext mime : String) :
    (correct_extension true ext mime).2 = none := by
  unfold correct_extension
  cases extMap mime with
  | none => rfl
  | some ce => dsimp only; split <;> rfl

theorem convert_single_image_dry (m : Member) :
    convert_single_image true m = noConvEffects := by
  unfold convert_single_image
  by_cases h : ¬(get_mime_type m.sniff = "image/jpeg" ∨ get_mime_type m.sniff = "image/png")
  · rw [if_pos h]
  · rw [if_neg h]
    simp [correct_extension_dry, noConvEffects]

theorem convert_single_image_nonconv (d : Bool) (m : Member)
    (h : ¬(get_mime_type m.sniff = "image/jpeg" ∨ get_mime_type m.sniff = "image/png")) :
    convert_single_image d m = noConvEffects := by
  unfold convert_single_image
  rw [if_pos h]

/-- C10: content-type sniffing is total: a sniffing timeout, a nonzero exit,
or a missing sniffing binary yields the fallback `application/octet-stream`
instead of an exception, and a member sniffed to that fallback is returned
from the conversion worker with zero savings, unrenamed, unencoded, and
undeleted. -/
theorem c10_sniff_fallback :
    get_mime_type .timedOut = octetStream ∧ get_mime_type .procErr = octetStream ∧
    ∀ (d : Bool) (m : Member), get_mime_type m.sniff = octetStream →
      convert_single_image d m = noConvEffects := by
  refine ⟨rfl, rfl, ?_⟩
  intro d m h
  apply convert_single_image_nonconv
  rw [h]
  decide

theorem c10_sniff_fallback_witness :
    convert_single_image false
      ⟨".jpg", .timedOut, 5, ⟨false, 0, "", false, 0⟩, ⟨false, 0, "", false, 0⟩⟩
      = noConvEffects :=
  c10_sniff_fallback.2.2 false
    ⟨".jpg", .timedOut, 5, ⟨false, 0, "", false, 0⟩, ⟨false, 0, "", false, 0⟩⟩ rfl

/-- C7: with a convertible sniffed type on a real run, the encode is retried
(with jpeg-bitstream reconstruction disabled) exactly when the first cjxl
invocation completed with a nonzero return code and a stderr containing the
specific reconstruction-data error; whenever the retry runs, any existing
partial output was deleted first; at most two invocations ever run, the
second one being exactly the retry. -/
theorem c7_retry_once (m : Member)
    (h : get_mime_type m.sniff = "image/jpeg" ∨ get_mime_type m.sniff = "image/png") :
    ((convert_single_image false m).retried = true ↔
      (m.att1.timedOut = false ∧ m.att1.returncode ≠ 0 ∧
        strContains m.att1.stderr reconNeedle = true)) ∧
    ((convert_single_image false m).attempts = 2 ↔
      (convert_single_image false m).retried = true) ∧
    ((convert_single_image false m).retried = true →
      (convert_single_image false m).removedBeforeRetry = m.att1.jxlExists) ∧
    (convert_single_image false m).attempts ≤ 2 := by
  unfold convert_single_image
  rw [if_neg (not_not_intro h)]
  simp only [Bool.false_eq_true, if_false]
  by_cases hT : m.att1.timedOut = true
  · simp [hT]
  · rw [if_neg hT]
    simp only [Bool.not_eq_true] at hT
    by_cases hR : m.att1.returncode ≠ 0 ∧ strContains m.att1.stderr reconNeedle = true
    · rw [if_pos hR]
      by_cases hT2 : m.att2.timedOut = true
      · simp [hT2, hT, hR]
      · rw [if_neg hT2]
        unfold finalizeConv
        split <;> simp [hT, hR]
    · rw [if_neg hR]
      unfold finalizeConv
      split <;> simp [hT, hR]

theorem c7_retry_once_witness :
    (convert_single_image false
      ⟨".jpg", .ok "image/jpeg", 100,
        ⟨false, 1, "enc: JPEG bitstream reconstruction data could not be created", true, 7⟩,
        ⟨false, 0, "", true, 40⟩⟩).retried = true :=
  (c7_retry_once
    ⟨".jpg", .ok "image/jpeg", 100,
      ⟨false, 1, "enc: JPEG bitstream reconstruction data could not be created", true, 7⟩,
      ⟨false, 0, "", true, 40⟩⟩ (Or.inl rfl)).1.mpr (by refine ⟨rfl, ?_, ?_⟩ <;> decide)

theorem flatten_cbz_archive_dry (t : WTree) : (flatten_cbz_archive true t).1 = t := by
  unfold flatten_cbz_archive
  dsimp only
  split
  · rfl
  · split <;> first | rfl | simp_all

theorem process_cbz_dry (b de nc nf : Bool) (w : World) (job : ArchiveJob) :
    (process_cbz ⟨true, b, de, nc, nf⟩ w job).world = w ∧
    (process_cbz ⟨true, b, de, nc, nf⟩ w job).fs = noFsOutcome := by
  unfold process_cbz
  simp [mark_failed, mark_processed, noFsOutcome]
  split <;> simp_all
  constructor <;> (repeat' split) <;> rfl

/-- C4: under dry-run every mutating step is simulated: `process_cbz` leaves
both persisted stores unchanged and touches no archive file (no backup copy,
no deletion, no repack), the conversion worker performs no rename, no encode
and no delete, the flattener moves nothing, and both store writers are
no-ops. -/
theorem c4_dry_run_invariance :
    (∀ (b de nc nf : Bool) (w : World) (job : ArchiveJob),
      (process_cbz ⟨true, b, de, nc, nf⟩ w job).world = w ∧
      (process_cbz ⟨true, b, de, nc, nf⟩ w job).fs = noFsOutcome) ∧
    (∀ m : Member, convert_single_image true m = noConvEffects) ∧
    (∀ t : WTree, (flatten_cbz_archive true t).1 = t) ∧
    (∀ (s : List SuccessRec) (p : String) (o : Nat) (fz sv : Int) (dm : String),
      mark_processed true s p o fz sv dm = s) ∧
    (∀ (fs : List FailRec) (p : String), mark_failed true fs p = fs) :=
  ⟨process_cbz_dry, convert_single_image_dry, flatten_cbz_archive_dry,
    fun _ _ _ _ _ _ => rfl, fun _ _ => rfl⟩

theorem memberEffect_conv (d : Bool) (m : Member)
    (h : classifyExt m.ext = .convertibleJpg ∨ classifyExt m.ext = .convertiblePng) :
    memberEffect d m = convert_single_image d m := by
  unfold memberEffect
  rcases h with h | h <;> rw [h]

theorem memberEffect_saved (d : Bool) (m : Member) :
    (memberEffect d m).saved =
      if (decide (classifyExt m.ext = .convertibleJpg ∨ classifyExt m.ext = .convertiblePng)) = true
      then (convert_single_image d m).saved else 0 := by
  by_cases h : classifyExt m.ext = .convertibleJpg ∨ classifyExt m.ext = .convertiblePng
  · rw [memberEffect_conv d m h]
    simp [h]
  · rw [decide_eq_false h, if_neg (by simp)]
    unfold memberEffect
    cases hc : classifyExt m.ext <;> simp_all [noConvEffects]

theorem sum_filter_map {α : Type} (p : α → Bool) (g : α → Int) (ms : List α) :
    ((ms.filter p).map g).sum = (ms.map (fun m => if p m = true then g m else 0)).sum := by
  induction ms with
  | nil => rfl
  | cons a l ih => by_cases h : p a = true <;> simp [List.filter_cons, h, ih]

theorem convert_images_total (d : Bool) (ms : List Member) :
    (convert_images d ms).totalSaved = (ms.map (fun m => (memberEffect d m).saved)).sum := by
  have hsum : ((ms.filter (fun m =>
      decide (classifyExt m.ext = .convertibleJpg ∨ classifyExt m.ext = .convertiblePng))).map
        (fun m => (convert_single_image d m).saved)).sum
      = (ms.map (fun m => (memberEffect d m).saved)).sum := by
    rw [sum_filter_map]
    congr 1
    apply List.map_congr_left
    intro m _
    exact (memberEffect_saved d m).symm
  unfold convert_images
  dsimp only
  split
  · rename_i hconv
    rw [List.isEmpty_iff] at hconv
    rw [hconv] at hsum
    simp at hsum
    split
    · simpa using hsum
    · split
      · split <;> simpa using hsum
      · simpa using hsum
  · split <;> exact hsum

theorem convert_single_saved (m : Member) (fin : EncAttempt)
    (hm : get_mime_type m.sniff = "image/jpeg" ∨ get_mime_type m.sniff = "image/png")
    (h1 : m.att1.timedOut = false)
    (hfin : fin = (if m.att1.returncode ≠ 0 ∧ strContains m.att1.stderr reconNeedle = true
      then m.att2 else m.att1))
    (h2 : fin.timedOut = false) (h3 : fin.returncode = 0) (h4 : fin.jxlExists = true)
    (h5 : 0 < fin.jxlSize) :
    (convert_single_image false m).saved = (m.origSize : Int) - (fin.jxlSize : Int) ∧
    (convert_single_image false m).srcDeleted = true := by
  unfold convert_single_image
  rw [if_neg (not_not_intro hm)]
  simp only [Bool.false_eq_true, if_false, h1]
  by_cases hR : m.att1.returncode ≠ 0 ∧ strContains m.att1.stderr reconNeedle = true
  · rw [if_pos hR] at hfin ⊢
    rw [← hfin]
    rw [if_neg (by rw [h2]; exact Bool.false_ne_true)]
    unfold finalizeConv
    rw [if_pos ⟨h3, h4, h5⟩]
    exact ⟨rfl, rfl⟩
  · rw [if_neg hR] at hfin ⊢
    rw [← hfin]
    unfold finalizeConv
    rw [if_pos ⟨h3, h4, h5⟩]
    exact ⟨rfl, rfl⟩

theorem process_cbz_repack_record (w : World) (job : ArchiveJob)
    (hu : job.unexpectedErr = false) (he : job.extractOk = true)
    (hst : (convert_images false job.members).status = ConversionStatus.processedSavedSpace ∨
      (convert_images false job.members).status = ConversionStatus.processedNoSpaceSaved) :
    (process_cbz ⟨false, false, false, false, false⟩ w job).world.success =
      upsertSuccess w.success ⟨job.relPath, job.origSize, (job.repackedSize : Int),
        (job.origSize : Int) - (job.repackedSize : Int), "processed",
        (convert_images false job.members).dominant⟩ := by
  unfold process_cbz
  simp only [hu, he]
  norm_num
  rw [if_pos (Or.inl hst)]
  simp [mark_processed]

theorem convert_images_unrecognized (d : Bool) (ms : List Member)
    (h : ∀ m ∈ ms, classifyExt m.ext = .unrecognized) :
    (convert_images d ms).status = ConversionStatus.noImagesRecognized := by
  unfold convert_images
  dsimp only
  have hc : ms.filter (fun m =>
      decide (classifyExt m.ext = .convertibleJpg ∨ classifyExt m.ext = .convertiblePng)) = [] := by
    rw [List.filter_eq_nil_iff]
    intro m hm
    simp [h m hm]
  have hj : ms.filter (fun m => decide (classifyExt m.ext = .alreadyJxl)) = [] := by
    rw [List.filter_eq_nil_iff]
    intro m hm
    simp [h m hm]
  have ho : ms.filter (fun m => decide (classifyExt m.ext = .otherImage)) = [] := by
    rw [List.filter_eq_nil_iff]
    intro m hm
    simp [h m hm]
  rw [hc, hj, ho]
  simp

theorem process_cbz_delete_empty (w : World) (job : ArchiveJob) (b nf : Bool)
    (hb : job.backupOk = true) (hu : job.unexpectedErr = false) (he : job.extractOk = true)
    (hd : job.deleteOk = true)
    (hm : ∀ m ∈ job.members, classifyExt m.ext = .unrecognized) :
    (process_cbz ⟨false, b, true, false, nf⟩ w job).fs.archiveDeleted = true ∧
    (process_cbz ⟨false, b, true, false, nf⟩ w job).wasDeleted = true ∧
    (process_cbz ⟨false, b, true, false, nf⟩ w job).world.success =
      upsertSuccess w.success
        ⟨job.relPath, job.origSize, 0, 0, "processed", "DELETED_NO_IMAGES"⟩ ∧
    (process_cbz ⟨false, b, true, false, nf⟩ w job).world.failed = w.failed := by
  unfold process_cbz
  simp only [hb, hu, he]
  norm_num
  rw [if_pos (convert_images_unrecognized false job.members hm)]
  simp [hd, mark_processed]

theorem memberEffect_nonconv (d : Bool) (m : Member)
    (h : ¬(classifyExt m.ext = .convertibleJpg ∨ classifyExt m.ext = .convertiblePng)) :
    memberEffect d m = noConvEffects := by
  unfold memberEffect
  cases hc : classifyExt m.ext <;> simp_all

theorem convert_single_renamed (m : Member)
    (hm : get_mime_type m.sniff = "image/jpeg" ∨ get_mime_type m.sniff = "image/png") :
    (convert_single_image false m).renamedTo =
      (correct_extension false m.ext (get_mime_type m.sniff)).2 := by
  unfold convert_single_image
  rw [if_neg (not_not_intro hm)]
  simp only [Bool.false_eq_true, if_false]
  split
  · rfl
  · split
    · split
      · rfl
      · unfold finalizeConv
        split <;> rfl
    · unfold finalizeConv
      split <;> rfl

/-- C1 (amended): for every successfully converted member the reported
savings is exactly original size minus produced `.jxl` size, and the
archive-level conversion total returned by `convert_images` is the sum of
the per-member results with non-convertible members contributing 0; the
`bytes_saved` written to the persisted success record, however, is the
original archive size minus the repacked archive size, not that sum. -/
theorem c1_savings_accounting :
    (∀ (m : Member) (fin : EncAttempt),
      (get_mime_type m.sniff = "image/jpeg" ∨ get_mime_type m.sniff = "image/png") →
      m.att1.timedOut = false →
      fin = (if m.att1.returncode ≠ 0 ∧ strContains m.att1.stderr reconNeedle = true
        then m.att2 else m.att1) →
      fin.timedOut = false → fin.returncode = 0 → fin.jxlExists = true → 0 < fin.jxlSize →
      (convert_single_image false m).saved = (m.origSize : Int) - (fin.jxlSize : Int)) ∧
    (∀ (d : Bool) (ms : List Member),
      (convert_images d ms).totalSaved = (ms.map (fun m => (memberEffect d m).saved)).sum) ∧
    (∀ (d : Bool) (m : Member),
      ¬(classifyExt m.ext = .convertibleJpg ∨ classifyExt m.ext = .convertiblePng) →
      (memberEffect d m).saved = 0) ∧
    (∀ (w : World) (job : ArchiveJob),
      job.unexpectedErr = false → job.extractOk = true →
      ((convert_images false job.members).status = ConversionStatus.processedSavedSpace ∨
        (convert_images false job.members).status = ConversionStatus.processedNoSpaceSaved) →
      (process_cbz ⟨false, false, false, false, false⟩ w job).world.success =
        upsertSuccess w.success ⟨job.relPath, job.origSize, (job.repackedSize : Int),
          (job.origSize : Int) - (job.repackedSize : Int), "processed",
          (convert_images false job.members).dominant⟩) :=
  ⟨fun m fin hm h1 hf h2 h3 h4 h5 => (convert_single_saved m fin hm h1 hf h2 h3 h4 h5).1,
    convert_images_total,
    fun d m h => by rw [memberEffect_nonconv d m h]; rfl,
    process_cbz_repack_record⟩

theorem c1_savings_accounting_witness :
    (convert_single_image false
      ⟨".jpg", .ok "image/jpeg", 100, ⟨false, 0, "", true, 40⟩, ⟨false, 0, "", true, 40⟩⟩).saved
      = (100 : Int) - (40 : Int) :=
  c1_savings_accounting.1
    ⟨".jpg", .ok "image/jpeg", 100, ⟨false, 0, "", true, 40⟩, ⟨false, 0, "", true, 40⟩⟩
    ⟨false, 0, "", true, 40⟩ (Or.inl rfl) rfl (by decide) rfl rfl rfl (by decide)

theorem c1_counterexample :
    (process_cbz ⟨false, false, false, false, false⟩ ⟨[], []⟩
      ⟨"A.cbz", 150, true, true, "", false,
        [⟨".jpg", .ok "image/jpeg", 100, ⟨false, 0, "", true, 40⟩, ⟨false, 0, "", true, 40⟩⟩],
        false, false, 120, true⟩).world.success
      = [⟨"A.cbz", 150, 120, 30, "processed", "JPG"⟩] ∧
    ([⟨".jpg", .ok "image/jpeg", 100, ⟨false, 0, "", true, 40⟩, ⟨false, 0, "", true, 40⟩⟩].map
      (fun m => (memberEffect false m).saved)).sum = 60 ∧
    (30 : Int) ≠ 60 :=
  ⟨by decide, by decide, by decide⟩

/-- C2 (amended): with delete-empty-archives enabled on a real run, an
archive whose classification recognizes no image member is removed from
disk, and the success store receives a record with status `'processed'`
(not a distinct deleted status), `bytes_saved = 0`, `final_size = 0`, and
the deletion marked in `dominant_type = "DELETED_NO_IMAGES"`. -/
theorem c2_delete_empty_record (w : World) (job : ArchiveJob) (b nf : Bool)
    (hb : job.backupOk = true) (hu : job.unexpectedErr = false) (he : job.extractOk = true)
    (hd : job.deleteOk = true)
    (hm : ∀ m ∈ job.members, classifyExt m.ext = .unrecognized) :
    (process_cbz ⟨false, b, true, false, nf⟩ w job).fs.archiveDeleted = true ∧
    (process_cbz ⟨false, b, true, false, nf⟩ w job).wasDeleted = true ∧
    (process_cbz ⟨false, b, true, false, nf⟩ w job).world.success =
      upsertSuccess w.success
        ⟨job.relPath, job.origSize, 0, 0, "processed", "DELETED_NO_IMAGES"⟩ ∧
    (process_cbz ⟨false, b, true, false, nf⟩ w job).world.failed = w.failed :=
  process_cbz_delete_empty w job b nf hb hu he hd hm

theorem c2_delete_empty_record_witness :
    (process_cbz ⟨false, false, true, false, false⟩ ⟨[], []⟩
      ⟨"C.cbz", 1000, true, true, "", false, [], false, false, 0, true⟩).wasDeleted = true :=
  (c2_delete_empty_record ⟨[], []⟩
    ⟨"C.cbz", 1000, true, true, "", false, [], false, false, 0, true⟩
    false false rfl rfl rfl rfl (by decide)).2.1

theorem c2_counterexample :
    (process_cbz ⟨false, false, true, false, false⟩ ⟨[], []⟩
      ⟨"C.cbz", 1000, true, true, "", false, [], false, false, 0, true⟩).world.success
      = [⟨"C.cbz", 1000, 0, 0, "processed", "DELETED_NO_IMAGES"⟩] ∧
    "processed" ≠ "deleted" ∧
    ((0 : Int) = (1000 : Int) → False) :=
  ⟨by decide, by decide, by decide⟩

/-- C3 (amended): the classification of a working-tree file into
convertible / already-target / other-image / unrecognized is determined by
its filename extension; content sniffing only double-checks members whose
extension already marked them convertible (any other member is untouched);
and only such a member, when sniffed as jpeg or png with a disagreeing
extension, is renamed to the matching extension before encoding. -/
theorem c3_extension_classification :
    (∀ (d : Bool) (m : Member),
      ¬(classifyExt m.ext = .convertibleJpg ∨ classifyExt m.ext = .convertiblePng) →
      memberEffect d m = noConvEffects) ∧
    (∀ (d : Bool) (m : Member),
      ¬(get_mime_type m.sniff = "image/jpeg" ∨ get_mime_type m.sniff = "image/png") →
      convert_single_image d m = noConvEffects) ∧
    (∀ m : Member,
      (classifyExt m.ext = .convertibleJpg ∨ classifyExt m.ext = .convertiblePng) →
      get_mime_type m.sniff = "image/jpeg" → lowerStr m.ext ≠ ".jpg" →
      (memberEffect false m).renamedTo = some ".jpg") ∧
    (∀ m : Member,
      (classifyExt m.ext = .convertibleJpg ∨ classifyExt m.ext = .convertiblePng) →
      get_mime_type m.sniff = "image/png" → lowerStr m.ext ≠ ".png" →
      (memberEffect false m).renamedTo = some ".png") := by
  refine ⟨memberEffect_nonconv, convert_single_image_nonconv, ?_, ?_⟩
  · intro m h hmime hx
    rw [memberEffect_conv false m h, convert_single_renamed m (Or.inl hmime), hmime]
    unfold correct_extension extMap
    simp [hx]
  · intro m h hmime hx
    rw [memberEffect_conv false m h, convert_single_renamed m (Or.inr hmime), hmime]
    unfold correct_extension extMap
    simp [hx]

theorem c3_extension_classification_witness :
    (memberEffect false
      ⟨".png", .ok "image/jpeg", 100, ⟨false, 0, "", true, 40⟩, ⟨false, 0, "", true, 40⟩⟩).renamedTo
      = some ".jpg" :=
  c3_extension_classification.2.2.1
    ⟨".png", .ok "image/jpeg", 100, ⟨false, 0, "", true, 40⟩, ⟨false, 0, "", true, 40⟩⟩
    (Or.inr (by decide)) rfl (by decide)

theorem c3_counterexample :
    classifyExt ".webp" = FileClass.otherImage ∧
    specClassifyMime "image/jpeg" = FileClass.convertibleJpg ∧
    classifyExt ".jpg" = FileClass.convertibleJpg ∧
    FileClass.otherImage ≠ FileClass.convertibleJpg ∧
    memberEffect false
      ⟨".webp", .ok "image/jpeg", 100, ⟨false, 0, "", true, 40⟩, ⟨false, 0, "", true, 40⟩⟩
      = noConvEffects ∧
    lowerStr ".webp" ≠ ".jpg" := by
  refine ⟨by decide, by decide, by decide, by decide, by decide, by decide⟩

/-- C9: the recorded dominant type is JPG when jpeg members strictly
outnumber png members, PNG in the symmetric case, Mixed when the counts are
equal and nonzero, N/A when both are zero; scenario A (3 jpeg + 1 png + 1
unrecognized member) persists dominant_type JPG. -/
theorem c9_dominant_type :
    (∀ j p : Nat, j > p → dominantType j p = "JPG") ∧
    (∀ j p : Nat, p > j → dominantType j p = "PNG") ∧
    (∀ j p : Nat, j = p → 0 < j → dominantType j p = "Mixed") ∧
    (∀ j p : Nat, j = p → j = 0 → dominantType j p = "N/A") ∧
    (convert_images false
      [⟨".jpg", .ok "image/jpeg", 100, ⟨false, 0, "", true, 40⟩, ⟨false, 0, "", true, 40⟩⟩,
        ⟨".jpg", .ok "image/jpeg", 100, ⟨false, 0, "", true, 40⟩, ⟨false, 0, "", true, 40⟩⟩,
        ⟨".jpg", .ok "image/jpeg", 100, ⟨false, 0, "", true, 40⟩, ⟨false, 0, "", true, 40⟩⟩,
        ⟨".png", .ok "image/png", 50, ⟨false, 0, "", true, 30⟩, ⟨false, 0, "", true, 30⟩⟩,
        ⟨".txt", .ok "text/plain", 10, ⟨false, 0, "", false, 0⟩, ⟨false, 0, "", false, 0⟩⟩]).dominant
      = "JPG" ∧
    (process_cbz ⟨false, false, false, false, false⟩ ⟨[], []⟩
      ⟨"A.cbz", 500, true, true, "", false,
        [⟨".jpg", .ok "image/jpeg", 100, ⟨false, 0, "", true, 40⟩, ⟨false, 0, "", true, 40⟩⟩,
          ⟨".jpg", .ok "image/jpeg", 100, ⟨false, 0, "", true, 40⟩, ⟨false, 0, "", true, 40⟩⟩,
          ⟨".jpg", .ok "image/jpeg", 100, ⟨false, 0, "", true, 40⟩, ⟨false, 0, "", true, 40⟩⟩,
          ⟨".png", .ok "image/png", 50, ⟨false, 0, "", true, 30⟩, ⟨false, 0, "", true, 30⟩⟩,
          ⟨".txt", .ok "text/plain", 10, ⟨false, 0, "", false, 0⟩, ⟨false, 0, "", false, 0⟩⟩],
        false, false, 300, true⟩).world.success
      = [⟨"A.cbz", 500, 300, 200, "processed", "JPG"⟩] := by
  refine ⟨?_, ?_, ?_, ?_, by decide, by decide⟩
  · intro j p h
    unfold dominantType
    rw [if_pos h]
  · intro j p h
    unfold dominantType
    rw [if_neg (by omega), if_pos h]
  · intro j p h h2
    unfold dominantType
    rw [if_neg (by omega), if_neg (by omega), if_pos (by omega)]
  · intro j p h h2
    unfold dominantType
    rw [if_neg (by omega), if_neg (by omega), if_neg (by omega)]

theorem c9_dominant_type_witness :
    dominantType 3 1 = "JPG" ∧ dominantType 1 2 = "PNG" ∧
    dominantType 2 2 = "Mixed" ∧ dominantType 0 0 = "N/A" :=
  ⟨c9_dominant_type.1 3 1 (by decide), c9_dominant_type.2.1 1 2 (by decide),
    c9_dominant_type.2.2.1 2 2 rfl (by decide), c9_dominant_type.2.2.2.1 0 0 rfl rfl⟩

theorem any_map_upsert (s : List SuccessRec) (r : SuccessRec) (p : String) :
    ((s.map (fun x => if x.path = r.path then r else x)).any (fun x => x.path = p))
      = s.any (fun x => x.path = p) := by
  induction s with
  | nil => rfl
  | cons a l ih =>
    simp only [List.map_cons, List.any_cons, ih]
    by_cases h : a.path = r.path
    · rw [if_pos h, h]
    · rw [if_neg h]

theorem any_upsertSuccess (s : List SuccessRec) (r : SuccessRec) (p : String)
    (h : s.any (fun x => x.path = p) = true) :
    (upsertSuccess s r).any (fun x => x.path = p) = true := by
  unfold upsertSuccess
  split
  · rw [any_map_upsert]
    exact h
  · simp only [List.any_append, h, Bool.true_or]

theorem process_cbz_keeps_success_keys (fl : Flags) (w : World) (job : ArchiveJob) (p : String)
    (h : w.success.any (fun x => x.path = p) = true) :
    ((process_cbz fl w job).world.success.any (fun x => x.path = p)) = true := by
  unfold process_cbz mark_processed
  dsimp only
  repeat' split
  all_goals first
    | exact h
    | exact any_upsertSuccess _ _ _ h

theorem foldl_skip (fl : Flags) (skipSet : List String) (jobs : List ArchiveJob) :
    ∀ st : RunStats, (∀ job ∈ jobs, job.relPath ∈ skipSet) →
    jobs.foldl (runStep fl false skipSet) st =
      { st with skippedCount := st.skippedCount + jobs.length } := by
  induction jobs with
  | nil => intro st _; simp
  | cons j rest ih =>
    intro st h
    have hstep : runStep fl false skipSet st j =
        { st with skippedCount := st.skippedCount + 1 } := by
      unfold runStep
      rw [if_pos ⟨h j (List.mem_cons_self j rest), by simp⟩]
    simp only [List.foldl_cons, hstep]
    rw [ih _ (fun x hx => h x (List.mem_cons_of_mem j hx))]
    simp only [List.length_cons]
    congr 1
    omega

theorem foldl_recheck (fl : Flags) (skipSet : List String) (jobs : List ArchiveJob) :
    ∀ st : RunStats,
      (jobs.foldl (runStep fl true skipSet) st).skippedCount = st.skippedCount ∧
      (jobs.foldl (runStep fl true skipSet) st).processedCount
          + (jobs.foldl (runStep fl true skipSet) st).deletedCount
        = st.processedCount + st.deletedCount + jobs.length ∧
      (∀ p, st.world.success.any (fun x => x.path = p) = true →
        (jobs.foldl (runStep fl true skipSet) st).world.success.any
          (fun x => x.path = p) = true) := by
  induction jobs with
  | nil => intro st; exact ⟨rfl, by simp, fun p hp => hp⟩
  | cons j rest ih =>
    intro st
    have hskip : ¬(j.relPath ∈ skipSet ∧ ¬(true : Bool) = true) := by simp
    by_cases hd : (process_cbz fl st.world j).wasDeleted = true
    · have hstep : runStep fl true skipSet st j =
          { st with
            world := (process_cbz fl st.world j).world
            deletedCount := st.deletedCount + 1
            fsEffects := st.fsEffects ++ [(j.relPath, (process_cbz fl st.world j).fs)] } := by
        unfold runStep
        rw [if_neg hskip, if_pos hd]
      simp only [List.foldl_cons, hstep]
      obtain ⟨h1, h2, h3⟩ := ih ({ st with
        world := (process_cbz fl st.world j).world
        deletedCount := st.deletedCount + 1
        fsEffects := st.fsEffects ++ [(j.relPath, (process_cbz fl st.world j).fs)] })
      refine ⟨h1, by rw [h2]; simp; omega, ?_⟩
      intro p hp
      exact h3 p (process_cbz_keeps_success_keys fl st.world j p hp)
    · have hstep : runStep fl true skipSet st j =
          { st with
            world := (process_cbz fl st.world j).world
            processedCount := st.processedCount + 1
            totalSaved := st.totalSaved + (process_cbz fl st.world j).savedBytes
            flattenedCount := st.flattenedCount +
              (if (process_cbz fl st.world j).wasFlattened then 1 else 0)
            fsEffects := st.fsEffects ++ [(j.relPath, (process_cbz fl st.world j).fs)] } := by
        unfold runStep
        rw [if_neg hskip, if_neg hd]
      simp only [List.foldl_cons, hstep]
      obtain ⟨h1, h2, h3⟩ := ih ({ st with
        world := (process_cbz fl st.world j).world
        processedCount := st.processedCount + 1
        totalSaved := st.totalSaved + (process_cbz fl st.world j).savedBytes
        flattenedCount := st.flattenedCount +
          (if (process_cbz fl st.world j).wasFlattened then 1 else 0)
        fsEffects := st.fsEffects ++ [(j.relPath, (process_cbz fl st.world j).fs)] })
      refine ⟨h1, by rw [h2]; simp; omega, ?_⟩
      intro p hp
      exact h3 p (process_cbz_keeps_success_keys fl st.world j p hp)

/-- C5: on a second run without recheck-all, every archive whose relative
path has a status-'processed' record in the success store is skipped: the
pipeline output is the unchanged stores, zero processed archives, zero byte
delta, and no archive-file effect; with recheck-all the skip set is ignored
(nothing is skipped, every archive is handed to `process_cbz`) but existing
success records are only ever overwritten by upserts, never deleted. -/
theorem c5_skip_and_recheck :
    (∀ (fl : Flags) (w : World) (jobs : List ArchiveJob),
      (∀ job ∈ jobs, ∃ r ∈ w.success, r.path = job.relPath ∧ r.status = "processed") →
      mainLoop fl false w jobs = ⟨w, 0, jobs.length, 0, 0, 0, []⟩) ∧
    (∀ (fl : Flags) (w : World) (jobs : List ArchiveJob),
      (mainLoop fl true w jobs).skippedCount = 0 ∧
      (mainLoop fl true w jobs).processedCount + (mainLoop fl true w jobs).deletedCount
        = jobs.length ∧
      (∀ p, w.success.any (fun x => x.path = p) = true →
        (mainLoop fl true w jobs).world.success.any (fun x => x.path = p) = true)) := by
  constructor
  · intro fl w jobs h
    unfold mainLoop
    rw [foldl_skip fl _ jobs _ ?_]
    · simp
    · intro job hj
      obtain ⟨r, hr, hpath, hstatus⟩ := h job hj
      unfold loadProcessedPaths
      rw [if_neg (by simp)]
      exact List.mem_map.mpr ⟨r, List.mem_filter.mpr ⟨hr, by simp [hstatus]⟩, hpath⟩
  · intro fl w jobs
    unfold mainLoop
    obtain ⟨h1, h2, h3⟩ := foldl_recheck fl (loadProcessedPaths true w.success) jobs
      ⟨w, 0, 0, 0, 0, 0, []⟩
    exact ⟨h1, by rw [h2]; simp, h3⟩

theorem c5_skip_and_recheck_witness :
    mainLoop ⟨false, false, false, false, false⟩ false
      ⟨[⟨"A.cbz", 10, 10, 0, "processed", "N/A"⟩], []⟩
      [⟨"A.cbz", 10, true, true, "", false, [], false, false, 0, true⟩]
      = ⟨⟨[⟨"A.cbz", 10, 10, 0, "processed", "N/A"⟩], []⟩, 0, 1, 0, 0, 0, []⟩ :=
  c5_skip_and_recheck.1 ⟨false, false, false, false, false⟩
    ⟨[⟨"A.cbz", 10, 10, 0, "processed", "N/A"⟩], []⟩
    [⟨"A.cbz", 10, true, true, "", false, [], false, false, 0, true⟩]
    (by decide)

theorem foldl_counts (fl : Flags) (rc : Bool) (skipSet : List String)
    (jobs : List ArchiveJob) : ∀ st : RunStats,
    (jobs.foldl (runStep fl rc skipSet) st).processedCount
        + (jobs.foldl (runStep fl rc skipSet) st).skippedCount
        + (jobs.foldl (runStep fl rc skipSet) st).deletedCount
      = st.processedCount + st.skippedCount + st.deletedCount + jobs.length := by
  induction jobs with
  | nil => intro st; simp
  | cons j rest ih =>
    intro st
    simp only [List.foldl_cons]
    by_cases hs : j.relPath ∈ skipSet ∧ ¬rc = true
    · have hstep : runStep fl rc skipSet st j =
          { st with skippedCount := st.skippedCount + 1 } := by
        unfold runStep
        rw [if_pos hs]
      rw [hstep, ih]
      simp only [List.length_cons]
      omega
    · by_cases hd : (process_cbz fl st.world j).wasDeleted = true
      · have hstep : runStep fl rc skipSet st j =
            { st with
              world := (process_cbz fl st.world j).world
              deletedCount := st.deletedCount + 1
              fsEffects := st.fsEffects ++ [(j.relPath, (process_cbz fl st.world j).fs)] } := by
          unfold runStep
          rw [if_neg hs, if_pos hd]
        rw [hstep, ih]
        simp only [List.length_cons]
        omega
      · have hstep : runStep fl rc skipSet st j =
            { st with
              world := (process_cbz fl st.world j).world
              processedCount := st.processedCount + 1
              totalSaved := st.totalSaved + (process_cbz fl st.world j).savedBytes
              flattenedCount := st.flattenedCount +
                (if (process_cbz fl st.world j).wasFlattened then 1 else 0)
              fsEffects := st.fsEffects ++ [(j.relPath, (process_cbz fl st.world j).fs)] } := by
          unfold runStep
          rw [if_neg hs, if_neg hd]
        rw [hstep, ih]
        simp only [List.length_cons]
        omega

theorem process_cbz_backup_fail (fl : Flags) (w : World) (job : ArchiveJob)
    (hdry : fl.dryRun = false) (hb : fl.backup = true) (hk : job.backupOk = false) :
    process_cbz fl w job =
      ⟨⟨w.success, upsertFail w.failed ⟨job.relPath, "failed"⟩⟩, noFsOutcome, 0, false, false⟩ := by
  unfold process_cbz
  rw [if_pos ⟨hb, by simp [hdry], by simp [hk]⟩]
  simp [mark_failed, hdry]

theorem process_cbz_extract_fail (fl : Flags) (w : World) (job : ArchiveJob)
    (hdry : fl.dryRun = false) (hbk : fl.backup = false ∨ job.backupOk = true)
    (hu : job.unexpectedErr = false) (he : job.extractOk = false) :
    (process_cbz fl w job).world =
      ⟨w.success, upsertFail w.failed ⟨job.relPath, "failed"⟩⟩ ∧
    (process_cbz fl w job).wasDeleted = false ∧
    (process_cbz fl w job).savedBytes = 0 := by
  unfold process_cbz
  rw [if_neg (by rcases hbk with h | h <;> simp [h])]
  rw [if_neg (by simp [hu])]
  rw [if_pos ⟨by simp [hdry], by simp [he]⟩]
  simp [mark_failed, hdry]

theorem process_cbz_unexpected (fl : Flags) (w : World) (job : ArchiveJob)
    (hbk : fl.backup = false ∨ fl.dryRun = true ∨ job.backupOk = true)
    (hdry : fl.dryRun = false) (hu : job.unexpectedErr = true) :
    (process_cbz fl w job).world =
      ⟨w.success, upsertFail w.failed ⟨job.relPath, "failed"⟩⟩ ∧
    (process_cbz fl w job).wasDeleted = false ∧
    (process_cbz fl w job).savedBytes = 0 := by
  unfold process_cbz
  rw [if_neg (by rcases hbk with h | h | h <;> simp [h, hdry])]
  rw [if_pos (by simp [hu])]
  simp [mark_failed, hdry]

/-- C6 (amended): every archive-level error (backup failure, extraction
failure, or an unhandled exception during the archive's processing) is
caught at the orchestrator boundary and recorded in the failure store as a
record keyed by the archive's relative path with status 'failed' (the
captured diagnostic text is written only to the log, not to the failure
store), and the main loop still accounts for every discovered archive, so
the run proceeds to the next archive instead of aborting. -/
theorem c6_failures_recorded :
    (∀ (fl : Flags) (w : World) (job : ArchiveJob),
      fl.dryRun = false → fl.backup = true → job.backupOk = false →
      process_cbz fl w job =
        ⟨⟨w.success, upsertFail w.failed ⟨job.relPath, "failed"⟩⟩,
          noFsOutcome, 0, false, false⟩) ∧
    (∀ (fl : Flags) (w : World) (job : ArchiveJob),
      fl.dryRun = false → (fl.backup = false ∨ job.backupOk = true) →
      job.unexpectedErr = false → job.extractOk = false →
      (process_cbz fl w job).world =
        ⟨w.success, upsertFail w.failed ⟨job.relPath, "failed"⟩⟩) ∧
    (∀ (fl : Flags) (w : World) (job : ArchiveJob),
      (fl.backup = false ∨ fl.dryRun = true ∨ job.backupOk = true) →
      fl.dryRun = false → job.unexpectedErr = true →
      (process_cbz fl w job).world =
        ⟨w.success, upsertFail w.failed ⟨job.relPath, "failed"⟩⟩) ∧
    (∀ (fl : Flags) (rc : Bool) (w : World) (jobs : List ArchiveJob),
      (mainLoop fl rc w jobs).processedCount + (mainLoop fl rc w jobs).skippedCount
          + (mainLoop fl rc w jobs).deletedCount
        = jobs.length) := by
  refine ⟨?_, ?_, ?_, ?_⟩
  · intro fl w job h1 h2 h3
    exact process_cbz_backup_fail fl w job h1 h2 h3
  · intro fl w job h1 h2 h3 h4
    exact (process_cbz_extract_fail fl w job h1 h2 h3 h4).1
  · intro fl w job h1 h2 h3
    exact (process_cbz_unexpected fl w job h1 h2 h3).1
  · intro fl rc w jobs
    unfold mainLoop
    rw [foldl_counts]
    simp

theorem c6_failures_recorded_witness :
    (process_cbz ⟨false, false, false, false, false⟩ ⟨[], []⟩
      ⟨"X.cbz", 10, true, false, "boom traceback", false, [], false, false, 0, true⟩).world
      = ⟨[], [⟨"X.cbz", "failed"⟩]⟩ :=
  (c6_failures_recorded.2.1 ⟨false, false, false, false, false⟩ ⟨[], []⟩
    ⟨"X.cbz", 10, true, false, "boom traceback", false, [], false, false, 0, true⟩
    rfl (Or.inl rfl) rfl rfl).trans (by decide)

theorem c6_counterexample :
    process_cbz ⟨false, false, false, false, false⟩ ⟨[], []⟩
        ⟨"X.cbz", 10, true, false, "boom traceback", false, [], false, false, 0, true⟩
      = process_cbz ⟨false, false, false, false, false⟩ ⟨[], []⟩
        ⟨"X.cbz", 10, true, false, "", false, [], false, false, 0, true⟩ ∧
    (process_cbz ⟨false, false, false, false, false⟩ ⟨[], []⟩
        ⟨"X.cbz", 10, true, false, "boom traceback", false, [], false, false, 0, true⟩).world.failed
      = [⟨"X.cbz", "failed"⟩] ∧
    "failed" ≠ "boom traceback" ∧ "X.cbz" ≠ "boom traceback" :=
  ⟨by decide, by decide, by decide, by decide⟩

theorem le_foldr_max {α : Type} (g : α → Nat) (l : List α) (a : α) (h : a ∈ l) :
    g a ≤ l.foldr (fun x m => max (g x) m) 0 := by
  induction l with
  | nil => cases h
  | cons x xs ih =>
    rcases List.mem_cons.mp h with h | h
    · subst h
      exact Nat.le_max_left _ _
    · exact Nat.le_trans (ih h) (Nat.le_max_right _ _)

theorem collides_stem_le {t : WTree} {n : FName} (h : collides t n = true) :
    n.stem.length ≤ stemBound t := by
  unfold collides at h
  rcases Bool.or_eq_true_iff.mp h with h | h
  · obtain ⟨f, hf, hpf⟩ := List.any_eq_true.mp h
    obtain ⟨-, hname⟩ := of_decide_eq_true hpf
    have hb := le_foldr_max (fun f : TFile => f.name.stem.length) t.files f hf
    dsimp only at hb
    rw [hname] at hb
    exact Nat.le_trans hb (Nat.le_max_left _ _)
  · obtain ⟨d, hd, hpd⟩ := List.any_eq_true.mp h
    have hde := of_decide_eq_true hpd
    have h1 : (renderName n).length ≤
        d.foldr (fun s m2 => max s.length m2) 0 := by
      rw [hde]
      exact Nat.le_max_left _ _
    have h2 : d.foldr (fun s m2 => max s.length m2) 0 ≤
        t.dirs.foldr (fun d m => max (d.foldr (fun s m2 => max s.length m2) 0) m) 0 :=
      le_foldr_max (fun d : List String => d.foldr (fun s m2 => max s.length m2) 0) t.dirs d hd
    have h3 : n.stem.length ≤ (renderName n).length := by
      unfold renderName
      rw [String.length_append]
      exact Nat.le_add_right _ _
    exact Nat.le_trans (Nat.le_trans h3 (Nat.le_trans h1 h2)) (Nat.le_max_right _ _)

theorem suffixed_stem_len (n : FName) (c : Nat) :
    n.stem.length + 1 ≤ (suffixed n c).stem.length := by
  unfold suffixed
  dsimp only
  rw [String.length_append, String.length_append]
  have h1 : "_".length = 1 := rfl
  omega

theorem resolveFuel_free : ∀ (fuel : Nat) (t : WTree) (n : FName) (c : Nat),
    stemBound t + 1 ≤ fuel + n.stem.length →
    collides t (resolveFuel fuel t n c) = false := by
  intro fuel
  induction fuel with
  | zero =>
    intro t n c h
    unfold resolveFuel
    by_cases hc : collides t n = true
    · have := collides_stem_le hc
      omega
    · exact Bool.not_eq_true _ |>.mp hc
  | succ fuel ih =>
    intro t n c h
    unfold resolveFuel
    by_cases hc : collides t n = true
    · rw [if_pos hc]
      apply ih
      have := suffixed_stem_len n c
      omega
    · rw [if_neg hc]
      exact Bool.not_eq_true _ |>.mp hc

theorem resolveGo_free (t : WTree) (n : FName) (c : Nat) :
    collides t (resolveGo t n c) = false := by
  unfold resolveGo
  exact resolveFuel_free _ t n c (by omega)

theorem resolveGo_id (t : WTree) (n : FName) (c : Nat) (h : collides t n = false) :
    resolveGo t n c = n := by
  unfold resolveGo resolveFuel
  rw [h]
  simp

theorem resolveFuel_stem : ∀ (fuel : Nat) (t : WTree) (n : FName) (c : Nat),
    (resolveFuel fuel t n c).ext = n.ext ∧
    ∃ s, (resolveFuel fuel t n c).stem = n.stem ++ s := by
  intro fuel
  induction fuel with
  | zero =>
    intro t n c
    exact ⟨rfl, "", (String.append_empty n.stem).symm⟩
  | succ fuel ih =>
    intro t n c
    unfold resolveFuel
    by_cases hc : collides t n = true
    · rw [if_pos hc]
      obtain ⟨he, s, hs⟩ := ih t (suffixed n c) (c + 1)
      refine ⟨he, "_" ++ toString c ++ s, ?_⟩
      rw [hs]
      unfold suffixed
      dsimp only
      simp [String.append_assoc]
    · rw [if_neg hc]
      exact ⟨rfl, "", (String.append_empty n.stem).symm⟩

theorem resolveGo_stem (t : WTree) (n : FName) (c : Nat) :
    (resolveGo t n c).ext = n.ext ∧ ∃ s, (resolveGo t n c).stem = n.stem ++ s :=
  resolveFuel_stem _ t n c

theorem all_filter_of {α : Type} (l : List α) (p q : α → Bool)
    (h : ∀ a ∈ l, q a = false → p a = true) :
    (l.filter q).all p = l.all p := by
  induction l with
  | nil => rfl
  | cons a rest ih =>
    have ih2 := ih (fun x hx hq => h x (List.mem_cons_of_mem a hx) hq)
    by_cases hq : q a = true
    · rw [List.filter_cons_of_pos hq, List.all_cons, List.all_cons, ih2]
    · have hq2 : q a = false := Bool.not_eq_true _ |>.mp hq
      rw [List.filter_cons_of_neg (by simp [hq2]), List.all_cons, h a (List.mem_cons_self a rest) hq2, ih2]
      simp

theorem effEmpty_rmtree (u : WTree) (x y : String) (hxy : y ≠ x) :
    effEmpty (rmtree u x) y = effEmpty u y := by
  unfold effEmpty rmtree
  dsimp only
  rw [all_filter_of, all_filter_of]
  · intro d _ hq
    have hd : d.head? = some x := by
      by_contra hne
      simp [hne] at hq
    have hny : d.head? ≠ some y := by
      rw [hd]
      intro hcon
      exact hxy (Option.some.inj hcon).symm
    simp [hny]
  · intro f _ hq
    have hf : f.dir.head? = some x := by
      by_contra hne
      simp [hne] at hq
    have hny : f.dir.head? ≠ some y := by
      rw [hf]
      intro hcon
      exact hxy (Option.some.inj hcon).symm
    simp [hny]

theorem mem_rmtree_dirs (u : WTree) (x : String) (e : List String) :
    e ∈ (rmtree u x).dirs ↔ e ∈ u.dirs ∧ e.head? ≠ some x := by
  unfold rmtree
  simp [List.mem_filter]

theorem sweep_dirs_mem : ∀ (tops : List String), tops.Nodup →
    ∀ (u : WTree) (e : List String),
    e ∈ (sweepFold u tops).dirs ↔
      (e ∈ u.dirs ∧ ∀ x ∈ tops, effEmpty u x = true → e.head? ≠ some x) := by
  intro tops
  induction tops with
  | nil =>
    intro _ u e
    simp [sweepFold]
  | cons x xs ih =>
    intro hnd u e
    obtain ⟨hx, hxs⟩ := List.nodup_cons.mp hnd
    have hstep : sweepFold u (x :: xs) =
        sweepFold (if effEmpty u x then rmtree u x else u) xs := rfl
    rw [hstep]
    by_cases hE : effEmpty u x = true
    · rw [if_pos hE, ih hxs (rmtree u x) e]
      constructor
      · rintro ⟨h1, h2⟩
        rw [mem_rmtree_dirs] at h1
        refine ⟨h1.1, ?_⟩
        intro y hy hEy
        rcases List.mem_cons.mp hy with rfl | hy2
        · exact h1.2
        · refine h2 y hy2 ?_
          rw [effEmpty_rmtree u x y (fun hh => hx (hh ▸ hy2))]
          exact hEy
      · rintro ⟨h1, h2⟩
        refine ⟨(mem_rmtree_dirs u x e).mpr ⟨h1, h2 x (List.mem_cons_self x xs) hE⟩, ?_⟩
        intro y hy hEy
        rw [effEmpty_rmtree u x y (fun hh => hx (hh ▸ hy))] at hEy
        exact h2 y (List.mem_cons_of_mem x hy) hEy
    · rw [if_neg hE, ih hxs u e]
      constructor
      · rintro ⟨h1, h2⟩
        refine ⟨h1, ?_⟩
        intro y hy hEy
        rcases List.mem_cons.mp hy with rfl | hy2
        · exact absurd hEy hE
        · exact h2 y hy2 hEy
      · rintro ⟨h1, h2⟩
        exact ⟨h1, fun y hy hEy => h2 y (List.mem_cons_of_mem x hy) hEy⟩

theorem sweep_files_of_all_root : ∀ (tops : List String) (u : WTree),
    (∀ f ∈ u.files, f.dir = []) → (sweepFold u tops).files = u.files := by
  intro tops
  induction tops with
  | nil => intro u _; rfl
  | cons x xs ih =>
    intro u h
    have hstep : sweepFold u (x :: xs) =
        sweepFold (if effEmpty u x then rmtree u x else u) xs := rfl
    rw [hstep]
    by_cases hE : effEmpty u x = true
    · rw [if_pos hE]
      have hfiles : (rmtree u x).files = u.files := by
        unfold rmtree
        dsimp only
        apply List.filter_eq_self.mpr
        intro f hf
        rw [h f hf]
        simp
      rw [ih (rmtree u x) (by rw [hfiles]; exact h), hfiles]
    · rw [if_neg hE]
      exact ih u h

theorem not_collides_root {t : WTree} {n : FName} (h : collides t n = false)
    (f : TFile) (hf : f ∈ t.files) (hdir : f.dir = []) : f.name ≠ n := by
  intro hname
  have hcon : collides t n = true := by
    unfold collides
    apply Bool.or_eq_true_iff.mpr
    left
    exact List.any_eq_true.mpr ⟨f, hf, decide_eq_true ⟨hdir, hname⟩⟩
  rw [h] at hcon
  cases hcon

theorem filter_root_erase (u : List TFile) (n : TFile) (hn : n.dir ≠ []) :
    (u.erase n).filter (fun f => decide (f.dir = []))
      = u.filter (fun f => decide (f.dir = [])) := by
  rw [← List.erase_filter]
  apply List.erase_of_not_mem
  intro hmem
  exact hn (of_decide_eq_true (List.mem_filter.mp hmem).2)

theorem moveAll_spec : ∀ (ns : List TFile) (u : WTree),
    u.files.Nodup → ns.Nodup →
    (∀ n ∈ ns, n ∈ u.files ∧ n.dir ≠ []) →
    (∀ f ∈ u.files, f.dir ≠ [] → f ∈ ns) →
    ((u.files.filter (fun f => decide (f.dir = []))).map (fun f => f.name)).Nodup →
    (∀ f ∈ (ns.foldl moveOne u).files, f.dir = []) ∧
    (ns.foldl moveOne u).files.length = u.files.length ∧
    ((ns.foldl moveOne u).files.map (fun f => f.name)).Nodup ∧
    (ns.foldl moveOne u).dirs = u.dirs := by
  intro ns
  induction ns with
  | nil =>
    intro u hN _ _ hcov hroot
    have hall : ∀ f ∈ u.files, f.dir = [] := by
      intro f hf
      by_contra hne
      exact absurd (hcov f hf hne) (List.not_mem_nil f)
    refine ⟨hall, rfl, ?_, rfl⟩
    have hself : u.files.filter (fun f => decide (f.dir = [])) = u.files :=
      List.filter_eq_self.mpr (fun f hf => decide_eq_true (hall f hf))
    rw [hself] at hroot
    exact hroot
  | cons n rest ih =>
    intro u hN hns hmem hcov hroot
    obtain ⟨hnin, hrest⟩ := List.nodup_cons.mp hns
    obtain ⟨hnu, hndir⟩ := hmem n (List.mem_cons_self n rest)
    have hfree := resolveGo_free u n.name 1
    have hstep : (n :: rest).foldl moveOne u = rest.foldl moveOne (moveOne u n) := rfl
    rw [hstep]
    have hufiles : (moveOne u n).files
        = (u.files.erase n) ++ [⟨[], resolveGo u n.name 1⟩] := rfl
    have hudirs : (moveOne u n).dirs = u.dirs := rfl
    have hnotmem : (⟨[], resolveGo u n.name 1⟩ : TFile) ∉ u.files.erase n := by
      intro hmem2
      exact not_collides_root hfree ⟨[], resolveGo u n.name 1⟩
        (List.mem_of_mem_erase hmem2) rfl rfl
    have hN' : (moveOne u n).files.Nodup := by
      rw [hufiles]
      refine List.Nodup.append (hN.erase n) (List.nodup_singleton _) ?_
      intro a ha hb
      rw [List.mem_singleton] at hb
      subst hb
      exact hnotmem ha
    have hmem' : ∀ m ∈ rest, m ∈ (moveOne u n).files ∧ m.dir ≠ [] := by
      intro m hm
      obtain ⟨hmu, hmdir⟩ := hmem m (List.mem_cons_of_mem n hm)
      have hne : m ≠ n := fun hh => hnin (hh ▸ hm)
      refine ⟨?_, hmdir⟩
      rw [hufiles]
      exact List.mem_append_left _ ((hN.mem_erase_iff).mpr ⟨hne, hmu⟩)
    have hcov' : ∀ f ∈ (moveOne u n).files, f.dir ≠ [] → f ∈ rest := by
      intro f hf hfdir
      rw [hufiles] at hf
      rcases List.mem_append.mp hf with hf1 | hf2
      · have hfu : f ∈ u.files := List.mem_of_mem_erase hf1
        have hne : f ≠ n := ((hN.mem_erase_iff).mp hf1).1
        rcases List.mem_cons.mp (hcov f hfu hfdir) with rfl | hh
        · exact absurd rfl hne
        · exact hh
      · rw [List.mem_singleton] at hf2
        subst hf2
        exact absurd rfl hfdir
    have hroot' : (((moveOne u n).files.filter
        (fun f => decide (f.dir = []))).map (fun f => f.name)).Nodup := by
      rw [hufiles, List.filter_append, filter_root_erase u.files n hndir]
      have hsing : ([⟨[], resolveGo u n.name 1⟩] : List TFile).filter
          (fun f => decide (f.dir = [])) = [⟨[], resolveGo u n.name 1⟩] := rfl
      rw [hsing, List.map_append]
      refine List.Nodup.append hroot (List.nodup_singleton _) ?_
      intro a ha hb
      rw [List.map_singleton, List.mem_singleton] at hb
      subst hb
      obtain ⟨g, hg, hgname⟩ := List.mem_map.mp ha
      have hgmem := List.mem_filter.mp hg
      exact not_collides_root hfree g hgmem.1 (of_decide_eq_true hgmem.2) hgname
    have hlen' : (moveOne u n).files.length = u.files.length := by
      rw [hufiles, List.length_append, List.length_erase_of_mem hnu]
      have hpos : 0 < u.files.length := List.length_pos.mpr (fun hh => by
        rw [hh] at hnu
        exact absurd hnu (List.not_mem_nil n))
      simp only [List.length_singleton]
      omega
    obtain ⟨r1, r2, r3, r4⟩ := ih (moveOne u n) hN' hrest hmem' hcov' hroot'
    exact ⟨r1, by rw [r2, hlen'], r3, by rw [r4, hudirs]⟩

/-- C8 (amended): on a real run, flattening moves every nested file to the
working-tree root (returning true iff at least one file was moved, false on
a tree with no nested files), resolving each destination-name collision by
appending a numeric suffix before the extension with an incrementing
counter until the candidate name is free, so that final file names are
pairwise distinct; afterwards the directory-removal pass removes exactly
those top-level directories all of whose nested entries (files by full
name, directories by last component) are named `.DS_Store` — a directory
containing any other entry, including an empty subdirectory, is kept. -/
theorem c8_flatten (t : WTree) (h1 : t.files.Nodup)
    (h2 : ((t.files.filter (fun f => decide (f.dir = []))).map (fun f => f.name)).Nodup) :
    ((flatten_cbz_archive false t).2 = true ↔ ∃ f ∈ t.files, f.dir ≠ []) ∧
    (∀ f ∈ (flatten_cbz_archive false t).1.files, f.dir = []) ∧
    ((flatten_cbz_archive false t).1.files.length = t.files.length) ∧
    (((flatten_cbz_archive false t).1.files.map (fun f => f.name)).Nodup) ∧
    (∀ (u : WTree) (n : FName) (c : Nat), collides u (resolveGo u n c) = false) ∧
    (∀ (u : WTree) (n : FName) (c : Nat), collides u n = false → resolveGo u n c = n) ∧
    (∀ (u : WTree) (n : FName) (c : Nat),
      (resolveGo u n c).ext = n.ext ∧ ∃ s, (resolveGo u n c).stem = n.stem ++ s) ∧
    (∀ (tops : List String), tops.Nodup → ∀ (u : WTree) (e : List String),
      e ∈ (sweepFold u tops).dirs ↔
        (e ∈ u.dirs ∧ ∀ x ∈ tops, effEmpty u x = true → e.head? ≠ some x)) := by
  refine ⟨?_, ?_, ?_, ?_, resolveGo_free, resolveGo_id, resolveGo_stem, sweep_dirs_mem⟩ <;>
    (unfold flatten_cbz_archive; dsimp only) <;>
    by_cases hE : (t.files.filter (fun f => decide (f.dir ≠ []))).isEmpty = true
  · rw [if_pos hE]
    have hnil := List.isEmpty_iff.mp hE
    simp only [Bool.false_eq_true, false_iff]
    rintro ⟨f, hf, hfdir⟩
    have : f ∈ t.files.filter (fun f => decide (f.dir ≠ [])) :=
      List.mem_filter.mpr ⟨hf, decide_eq_true hfdir⟩
    rw [hnil] at this
    exact List.not_mem_nil f this
  · rw [if_neg hE, if_neg (by simp)]
    simp only [true_iff]
    cases hne : t.files.filter (fun g => decide (g.dir ≠ [])) with
    | nil => exact absurd (by rw [hne]; rfl) hE
    | cons f rest =>
      have hf : f ∈ t.files.filter (fun g => decide (g.dir ≠ [])) := by
        rw [hne]
        exact List.mem_cons_self f rest
      have hfm := List.mem_filter.mp hf
      exact ⟨f, hfm.1, of_decide_eq_true hfm.2⟩
  · rw [if_pos hE]
    have hnil := List.isEmpty_iff.mp hE
    intro f hf
    by_contra hne
    have : f ∈ t.files.filter (fun g => decide (g.dir ≠ [])) :=
      List.mem_filter.mpr ⟨hf, decide_eq_true hne⟩
    rw [hnil] at this
    exact List.not_mem_nil f this
  · rw [if_neg hE, if_neg (by simp)]
    obtain ⟨r1, r2, r3, r4⟩ := moveAll_spec (t.files.filter (fun f => decide (f.dir ≠ []))) t
      h1 (h1.filter _)
      (fun n hn => ⟨(List.mem_filter.mp hn).1, of_decide_eq_true (List.mem_filter.mp hn).2⟩)
      (fun f hf hfd => List.mem_filter.mpr ⟨hf, decide_eq_true hfd⟩) h2
    dsimp only
    rw [sweep_files_of_all_root _ _ r1]
    exact r1
  · rw [if_pos hE]
  · rw [if_neg hE, if_neg (by simp)]
    obtain ⟨r1, r2, r3, r4⟩ := moveAll_spec (t.files.filter (fun f => decide (f.dir ≠ []))) t
      h1 (h1.filter _)
      (fun n hn => ⟨(List.mem_filter.mp hn).1, of_decide_eq_true (List.mem_filter.mp hn).2⟩)
      (fun f hf hfd => List.mem_filter.mpr ⟨hf, decide_eq_true hfd⟩) h2
    dsimp only
    rw [sweep_files_of_all_root _ _ r1]
    exact r2
  · rw [if_pos hE]
    have hnil := List.isEmpty_iff.mp hE
    have hall : ∀ f ∈ t.files, f.dir = [] := by
      intro f hf
      by_contra hne
      have : f ∈ t.files.filter (fun g => decide (g.dir ≠ [])) :=
        List.mem_filter.mpr ⟨hf, decide_eq_true hne⟩
      rw [hnil] at this
      exact List.not_mem_nil f this
    have hself : t.files.filter (fun f => decide (f.dir = [])) = t.files :=
      List.filter_eq_self.mpr (fun f hf => decide_eq_true (hall f hf))
    rw [hself] at h2
    exact h2
  · rw [if_neg hE, if_neg (by simp)]
    obtain ⟨r1, r2, r3, r4⟩ := moveAll_spec (t.files.filter (fun f => decide (f.dir ≠ []))) t
      h1 (h1.filter _)
      (fun n hn => ⟨(List.mem_filter.mp hn).1, of_decide_eq_true (List.mem_filter.mp hn).2⟩)
      (fun f hf hfd => List.mem_filter.mpr ⟨hf, decide_eq_true hfd⟩) h2
    dsimp only
    rw [sweep_files_of_all_root _ _ r1]
    exact r3

theorem c8_flatten_witness :
    (flatten_cbz_archive false
        ⟨[⟨["d"], ⟨"a", ".jpg"⟩⟩, ⟨[], ⟨"a", ".jpg"⟩⟩], [["d"]]⟩).2 = true ∧
    (∀ f ∈ (flatten_cbz_archive false
        ⟨[⟨["d"], ⟨"a", ".jpg"⟩⟩, ⟨[], ⟨"a", ".jpg"⟩⟩], [["d"]]⟩).1.files, f.dir = []) ∧
    ((flatten_cbz_archive false
        ⟨[⟨["d"], ⟨"a", ".jpg"⟩⟩, ⟨[], ⟨"a", ".jpg"⟩⟩], [["d"]]⟩).1.files.map
      (fun f => f.name)).Nodup :=
  ⟨(c8_flatten ⟨[⟨["d"], ⟨"a", ".jpg"⟩⟩, ⟨[], ⟨"a", ".jpg"⟩⟩], [["d"]]⟩
      (by decide) (by decide)).1.mpr ⟨⟨["d"], ⟨"a", ".jpg"⟩⟩, by decide, by decide⟩,
    (c8_flatten ⟨[⟨["d"], ⟨"a", ".jpg"⟩⟩, ⟨[], ⟨"a", ".jpg"⟩⟩], [["d"]]⟩
      (by decide) (by decide)).2.1,
    (c8_flatten ⟨[⟨["d"], ⟨"a", ".jpg"⟩⟩, ⟨[], ⟨"a", ".jpg"⟩⟩], [["d"]]⟩
      (by decide) (by decide)).2.2.2.1⟩

theorem c8_counterexample :
    (flatten_cbz_archive false
        ⟨[⟨["a", "b"], ⟨"f", ".jpg"⟩⟩], [["a"], ["a", "b"]]⟩).1.files
      = [⟨[], ⟨"f", ".jpg"⟩⟩] ∧
    (flatten_cbz_archive false
        ⟨[⟨["a", "b"], ⟨"f", ".jpg"⟩⟩], [["a"], ["a", "b"]]⟩).1.dirs
      = [["a"], ["a", "b"]] ∧
    (["a", "b"] : List String) ∈ (flatten_cbz_archive false
        ⟨[⟨["a", "b"], ⟨"f", ".jpg"⟩⟩], [["a"], ["a", "b"]]⟩).1.dirs ∧
    "b" ≠ ".DS_Store" :=
  ⟨by decide, by decide, by decide, by decide⟩
